import Mathlib

/-!
# Verification of the nbodykit scheduler and data-stream core

Shallow embedding of the master/worker task scheduler
(`nbodykit/utils/parallel.py`) and of the data-stream / data-cache layer
(`nbodykit/extensionpoints.py`), with theorems checking the
natural-language specification against the code.

Conventions:
* Python exceptions are modelled with `Except`; a raised exception is an
  `.error` value.
* MPI collectives are modelled at the post-collective level: a value that
  the code broadcasts from a root rank appears in the model as a single
  value shared by all ranks, and per-rank behaviour is a function of the
  rank.  Message-passing traces are modelled as explicit action lists.
-/

/-! ## GroupPartitioner: `split_ranks` (parallel.py, lines 8-40) -/

/--
The loop body of `split_ranks`.  One iteration slices
`available[start:stop]`, then sets `start = stop`, `stop += N`, and when
`include_all` holds and extra ranks remain it additionally advances `stop`
by one and consumes one extra rank.  `iters` is the Python loop count
`range(total//N)`.
-/
def splitLoop (available : List Nat) (N : Nat) (includeAll : Bool) :
    Nat → Nat → Nat → Nat → List (List Nat)
  | 0, _, _, _ => []
  | iters + 1, start, stop, extra =>
    let ranks := (available.drop start).take (stop - start)
    if includeAll && extra > 0 then
      ranks :: splitLoop available N includeAll iters stop (stop + N + 1) (extra - 1)
    else
      ranks :: splitLoop available N includeAll iters stop (stop + N) extra

/--
`split_ranks(N_ranks, N, include_all)`: divide ranks `1 .. N_ranks-1`
(the master rank 0 is removed) into chunks of `N`, one chunk per loop
iteration; the Python generator yields `(i, ranks)` and the positional
index `i` is the position in the returned list.  The Python code computes
`total % N` and `total // N`, which for `N = 0` raises `ZeroDivisionError`
(that start-up failure is modelled in `MPIPool.init` below); this function
is meaningful for `N ≥ 1`.
-/
def split_ranks (N_ranks N : Nat) (include_all : Bool) : List (List Nat) :=
  let available := List.range' 1 (N_ranks - 1)
  let total := available.length
  splitLoop available N include_all (total / N) 0 N (total % N)

/-- Exception kinds that `MPIPool.__init__` can raise at start-up. -/
inductive PyErr where
  | valueError
  | zeroDivisionError
  | nameError
deriving DecidableEq, Repr

/--
`MPIPool.__init__` together with `_create_subcomm` (parallel.py, lines
62-145), reduced to its control flow on `size` (communicator size) and
`cpus_per_worker`; on success it returns the number of workers.

* `size == 1` raises `ValueError` ("Need at least two").
* `split_ranks` evaluates `total % cpus_per_worker`: for
  `cpus_per_worker = 0` Python raises `ZeroDivisionError`.
* When the `split_ranks` loop body never runs (`total // cpus_per_worker`
  is not positive, which happens for negative `cpus_per_worker` because
  Python floor-division of a non-negative `total` by a negative number is
  non-positive, and also for `size - 1 < cpus_per_worker`), the loop
  variable `i` is unbound and `self.workers = i+1` raises `NameError`.
* Finally `size <= workers` raises `ValueError`.

`total // cpus_per_worker` uses Python floor division, i.e. `Int.fdiv`.
-/
def MPIPool.init (size : Nat) (cpus_per_worker : Int) : Except PyErr Nat :=
  if size = 1 then .error .valueError
  else
    if cpus_per_worker = 0 then .error .zeroDivisionError
    else
      let total : Int := ((size : Int) - 1) ⊔ 0
      let iters : Nat := (Int.fdiv total cpus_per_worker).toNat
      if iters = 0 then .error .nameError
      else
        let workers := iters
        if size ≤ workers then .error .valueError
        else .ok workers

/--
Sizes of the chunks produced by the `split_ranks` loop when
`include_all` holds: the pending chunk has size `first` (initially `N`),
and after each chunk the next one grows to `N + 1` while `extra` ranks
remain.  Mirrors how `stop` advances in the loop.
-/
def chunkSizes (N : Nat) : Nat → Nat → Nat → List Nat
  | 0, _, _ => []
  | k + 1, e, first =>
    first :: (if e > 0 then chunkSizes N k (e - 1) (N + 1) else chunkSizes N k e N)

/-! ## TaskScheduler: worker loop (parallel.py, lines 160-207) -/

/-- The communication tags `enum('READY', 'DONE', 'EXIT', 'START')`. -/
inductive Tag where
  | READY
  | DONE
  | EXIT
  | START
deriving DecidableEq, Repr

/--
A message the master sends to a worker group's local coordinator in
`MPIPool.compute`: either `[task_index, task]` with tag `START`
(lines 249-250) or `None` with tag `EXIT` (line 254).
-/
inductive Instr (α : Type) where
  | start (idx : Nat) (task : α)
  | exit
deriving DecidableEq, Repr

/--
One observable step of a worker-group member in `MPIPool.wait`.
Actions on the global communicator `self.comm` (`sendReady`, `recvTask`,
`sendDone`, `sendExit`) are distinguished from sub-communicator
collectives (`bcastArgs`, `bcastTag`, `barrier`) and from invoking the
task function (`exec`).
-/
inductive WAction (α β : Type) where
  | sendReady
  | recvTask (ins : Instr α)
  | bcastArgs (args : Option (Nat × α))
  | bcastTag (tag : Tag)
  | exec (idx : Nat) (task : α) (res : β)
  | barrier
  | sendDone (idx : Nat) (res : β)
  | sendExit
deriving DecidableEq, Repr

/-- Whether an action is point-to-point traffic on the global communicator. -/
def WAction.isGlobalComm : WAction α β → Bool
  | .sendReady => true
  | .recvTask _ => true
  | .sendDone _ _ => true
  | .sendExit => true
  | _ => false

/--
The body of the `while True` loop in `MPIPool.wait` for the member with
sub-communicator rank `subrank`, given the instruction received by the
local coordinator (subrank 0) for this iteration.  Only subrank 0 sends
READY and receives from the master; the received args and tag are then
broadcast over the sub-communicator (so every member sees the same
instruction); on START every member runs the task function on the
broadcast payload `[task_index, task]`, the group hits a barrier, and
subrank 0 sends `[task_index, result]` with tag DONE.
-/
def memberIterActions (f : Nat → α → β) (subrank : Nat) : Instr α → List (WAction α β)
  | .start i t =>
    (if subrank = 0 then [WAction.sendReady, WAction.recvTask (Instr.start i t)] else [])
    ++ [WAction.bcastArgs (some (i, t)), WAction.bcastTag Tag.START]
    ++ [WAction.exec i t (f i t), WAction.barrier]
    ++ (if subrank = 0 then [WAction.sendDone i (f i t)] else [])
  | .exit =>
    (if subrank = 0 then [WAction.sendReady, WAction.recvTask Instr.exit] else [])
    ++ [WAction.bcastArgs none, WAction.bcastTag Tag.EXIT]

/--
The `while True` loop of `MPIPool.wait`, driven by the finite script of
instructions the master sends this worker group; the loop breaks after an
EXIT instruction.
-/
def waitLoop (f : Nat → α → β) (subrank : Nat) : List (Instr α) → List (WAction α β)
  | [] => []
  | ins :: rest =>
    memberIterActions f subrank ins ++
      (match ins with
       | .exit => []
       | .start _ _ => waitLoop f subrank rest)

/-- `RuntimeError("master node told to await jobs")`. -/
inductive RTErr where
  | masterWaiting
deriving DecidableEq, Repr

/--
`MPIPool.wait` (lines 160-207): the master raises `RuntimeError`; a rank
that is not a valid worker returns immediately doing nothing; a valid
worker runs the loop, then a final sub-communicator barrier, and its
local coordinator reports EXIT to the master.
-/
def MPIPool.wait (rank : Nat) (validWorker : Bool) (subrank : Nat)
    (f : Nat → α → β) (script : List (Instr α)) : Except RTErr (List (WAction α β)) :=
  if rank = 0 then .error .masterWaiting
  else if validWorker = false then .ok []
  else .ok (waitLoop f subrank script ++ [WAction.barrier] ++
    (if subrank = 0 then [WAction.sendExit] else []))

/-! ## TaskScheduler: master loop (parallel.py, lines 209-278) -/

/--
A message the master receives in its event loop, tagged READY / DONE /
EXIT; a DONE message carries the payload `[task_index, result]` that the
worker sent.
-/
inductive MasterMsg (β : Type) where
  | ready
  | done (idx : Nat) (res : β)
  | exitMsg
deriving DecidableEq, Repr

/-- The master's mutable loop state (`task_index`, `closed_workers`, `results`). -/
structure MasterState (β : Type) where
  task_index : Nat
  closed_workers : Nat
  results : List (Nat × β)
deriving Repr

/--
One iteration of the master's receive loop: on READY it sends the next
task (advancing `task_index`) or EXIT; on DONE it appends the received
`[task_index, result]` payload to `results` in arrival order; on EXIT it
counts the closed worker.
-/
def masterStep (ntasks : Nat) (s : MasterState β) (m : MasterMsg β) : MasterState β :=
  match m with
  | .ready =>
    if s.task_index < ntasks then { s with task_index := s.task_index + 1 } else s
  | .done i r => { s with results := s.results ++ [(i, r)] }
  | .exitMsg => { s with closed_workers := s.closed_workers + 1 }

/-- The DONE payloads of a message sequence, in arrival order. -/
def doneList : List (MasterMsg β) → List (Nat × β)
  | [] => []
  | .done i r :: rest => (i, r) :: doneList rest
  | .ready :: rest => doneList rest
  | .exitMsg :: rest => doneList rest

/--
Stable insertion into a list sorted by the first (submission-index)
component; used to model Python's stable `sorted(results, key=lambda r: r[0])`.
-/
def insertKeyed (x : Nat × β) : List (Nat × β) → List (Nat × β)
  | [] => [x]
  | y :: ys => if x.1 ≤ y.1 then x :: y :: ys else y :: insertKeyed x ys

/-- Stable sort by submission index, modelling `sorted(results, key=lambda r: r[0])`. -/
def sortByIndex : List (Nat × β) → List (Nat × β)
  | [] => []
  | x :: xs => insertKeyed x (sortByIndex xs)

/--
The master (rank 0) side of `MPIPool.compute`: fold the event loop over
the received messages and return `[r[1] for r in sorted(results, key=lambda r: r[0])]`
(line 278).  A task exception instead tears the whole job down via
`os._exit(1)` (lines 262-271), which has no return value to model.
-/
def MPIPool.compute_master (ntasks : Nat) (msgs : List (MasterMsg β)) : List β :=
  let final := msgs.foldl (masterStep ntasks) ⟨0, 0, []⟩
  (sortByIndex final.results).map Prod.snd

/--
`MPIPool.compute` (lines 209-278) as seen by one rank: every rank except
the master calls `self.wait()` and returns `None` (modelled as the worker
action trace paired with `none`); the master runs the event loop and
returns the sorted result list.  The `.error` case of `wait` cannot occur
for `rank ≠ 0`.
-/
def MPIPool.compute (rank : Nat) (validWorker : Bool) (subrank : Nat)
    (f : Nat → α → β) (tasks : List α) (script : List (Instr α))
    (msgs : List (MasterMsg β)) : List (WAction α β) × Option (List β) :=
  if rank ≠ 0 then
    match MPIPool.wait rank validWorker subrank f script with
    | .ok acts => (acts, none)
    | .error _ => ([], none)
  else ([], some (MPIPool.compute_master tasks.length msgs))

/-! ## DataCache and DataSource._cache_data (extensionpoints.py, lines 513-731) -/

/--
`DataCache(columns, data, local_size, total_size)`: the list of cached
column names, the per-process local slice of each column (stored as
attributes in the source, as an association by position here), the local
row count and the global row count.
-/
structure DataCache (α : Type) where
  columns : List String
  vals : List (List α)
  local_size : Nat
  total_size : Nat
deriving DecidableEq, Repr

/-- The `DataCache.empty` property: `len(self.columns) == 0`. -/
def DataCache.empty (c : DataCache α) : Bool :=
  c.columns.length == 0

/--
`DataCache.__getitem__`: the data for `col` when `col` is among the
cached columns, else nothing (the source raises `KeyError`; `DataStream.read`
only calls it after checking membership).
-/
def DataCache.getCol (c : DataCache α) (col : String) : Option (List α) :=
  (c.columns.zip c.vals).lookup col

/--
The outcome of `self.readall()` on the designated (root) rank, after the
success flag has been broadcast: the column-to-array mapping on success,
the distinguished `NotImplementedError` signal, or any other exception.
-/
inductive ReadallOutcome (α : Type) where
  | ok (data : List (String × List α))
  | notImplemented
  | failed
deriving Repr

/-- Exceptions raised during cache construction. -/
inductive CacheErr where
  | readallException
  | noData
  | lengthMismatch
  | unevenScatter
deriving DecidableEq, Repr

/--
`DataSource._verify_data` (lines 704-731): requires a non-empty column
list (`ValueError` otherwise) whose members all have the length of the
first column (`RuntimeError` otherwise), and returns that length.
-/
def _verify_data (data : List (List α)) : Except CacheErr Nat :=
  if data.length = 0 then .error .noData
  else
    if data.all (fun d => d.length = (data.headD []).length) then
      .ok (data.headD []).length
    else .error .lengthMismatch

/--
`DataSource._cache_data` (lines 629-702) for the process with the given
`rank`, after the broadcasts: `readall` raising `NotImplementedError` is
caught and recorded in the `success` flag, so every rank builds the empty
`DataCache([], [], 0, 0)`; any other `readall` exception is re-raised
wrapped in `Exception`; on success the columns are verified, each column
is scattered (`ScatterArray` is the external `scatter` collaborator) and
the per-column local sizes must agree (`RuntimeError` otherwise).
-/
def _cache_data (scatter : List α → Nat → List α) (rank : Nat)
    (r : ReadallOutcome α) : Except CacheErr (DataCache α) :=
  match r with
  | .failed => .error .readallException
  | .notImplemented => .ok ⟨[], [], 0, 0⟩
  | .ok data =>
    let columns := data.map Prod.fst
    match _verify_data (data.map Prod.snd) with
    | .error e => .error e
    | .ok size =>
      let cache := (data.map Prod.snd).map (fun d => scatter d rank)
      let localSizes := cache.map List.length
      if localSizes.all (fun s => s = localSizes.headD 0) then
        .ok ⟨columns, cache, localSizes.headD 0, size⟩
      else .error .unevenScatter

/-! ## DataStream (extensionpoints.py, lines 325-511) -/

/-- Exceptions raised by `DataStream.read` / `DataStream._blend_data`. -/
inductive StreamErr where
  | closedStream
  | missingColumn (col : String) (valid : List String)
  | missingDefault
  | verify (e : CacheErr)
deriving DecidableEq, Repr

/--
`DataStream._blend_data` (lines 458-511) over the `(column, data)` pairs
(`data[i] = None` marks a column the source did not provide): a column
outside `valid_columns` raises `DataSource.MissingColumn` naming the
column and the valid set; provided data is passed through; otherwise the
registered default is repeated `size` times (the source materializes this
view with `numpy` stride tricks; the repetition is the modelled content),
and a missing default raises `RuntimeError`.
-/
def _blend_data (defaults : List (String × α)) (valid_columns : List String) (size : Nat) :
    List (String × Option (List α)) → Except StreamErr (List (List α))
  | [] => .ok []
  | (col, d) :: rest =>
    if col ∈ valid_columns then
      match d with
      | some arr =>
        match _blend_data defaults valid_columns size rest with
        | .ok tail => .ok (arr :: tail)
        | .error e => .error e
      | none =>
        match defaults.lookup col with
        | none => .error .missingDefault
        | some v =>
          match _blend_data defaults valid_columns size rest with
          | .ok tail => .ok (List.replicate size v :: tail)
          | .error e => .error e
    else .error (.missingColumn col valid_columns)

/--
A `DataStream` (lines 325-382): the weak reference to the owning
source's cache (`none` once the stream is closed, since `closed` is
"`_cacheref` attribute deleted") and the per-stream defaults mapping.
-/
structure DataStream (α : Type) where
  cacheref : Option (DataCache α)
  defaults : List (String × α)
deriving Repr

/-- `DataStream.closed`: the stream no longer holds its `_cacheref`. -/
def DataStream.closed (s : DataStream α) : Bool :=
  s.cacheref.isNone

/--
`DataStream.close` (lines 369-375): `del self._cacheref` unless already
closed.  The source body cannot raise, so the model is a total function.
-/
def DataStream.close (s : DataStream α) : DataStream α :=
  if s.closed then s else { s with cacheref := none }

/--
One iteration of the streaming branch of `DataStream.read`
(lines 433-456) on a raw `parallel_read` batch: collect the columns whose
data is present, take the union with the default-bearing columns, verify
the present data (`_verify_data`), and blend.
-/
def blendBatch (defaults : List (String × α)) (columns : List String)
    (raw : List (Option (List α))) : Except StreamErr (List (List α)) :=
  let present := (columns.zip raw).filterMap
    (fun p => if p.2.isSome then some p.1 else none)
  let valid := present.union (defaults.map Prod.fst)
  match _verify_data (raw.filterMap id) with
  | .error e => .error (.verify e)
  | .ok size => _blend_data defaults valid size (columns.zip raw)

/--
`DataStream.read` (lines 394-456): raises `ValueError` on a closed
stream; if the cache is non-empty, yields one batch drawn from the cache
with defaults blended in (`valid_columns = set(cache.columns) | set(defaults)`,
modelled as the list union); otherwise iterates `parallel_read`, whose
raw batches are the `pread` argument (the concrete reader is a plugin
outside this core).  The batches of a successful read are returned as a
list; a raised exception is the `.error` value.
-/
def DataStream.read (s : DataStream α) (columns : List String)
    (pread : List (List (Option (List α)))) :
    Except StreamErr (List (List (List α))) :=
  match s.cacheref with
  | none => .error .closedStream
  | some cache =>
    if cache.empty then
      pread.mapM (blendBatch s.defaults columns)
    else
      let valid := cache.columns.union (s.defaults.map Prod.fst)
      let data := columns.map (fun col => cache.getCol col)
      match _blend_data s.defaults valid cache.local_size (columns.zip data) with
      | .ok batch => .ok [batch]
      | .error e => .error e

/-! ## DataSource.size (extensionpoints.py, lines 750-772) -/

/-- `ValueError("DataSource `size` has already been set to a different value")`. -/
inductive SizeErr where
  | conflict
deriving DecidableEq, Repr

/--
The `size` setter of `DataSource` (lines 763-772) acting on the optional
`_size` attribute: sets it when absent; re-setting to a different value
raises `ValueError`; re-setting to the same value does nothing.
-/
def DataSource.set_size [DecidableEq γ] (cur : Option γ) (val : γ) :
    Except SizeErr (Option γ) :=
  match cur with
  | none => .ok (some val)
  | some s => if val ≠ s then .error .conflict else .ok (some s)

/-! ## Helper lemmas: `split_ranks` -/

theorem range'_drop (s n m : Nat) :
    (List.range' s n).drop m = List.range' (s + m) (n - m) := by
  induction n generalizing s m with
  | zero => simp
  | succ k ih =>
    cases m with
    | zero => simp
    | succ m' =>
      rw [List.range'_succ, List.drop_succ_cons, ih (s + 1) m']
      congr 1 <;> omega

theorem range'_take (s n m : Nat) :
    (List.range' s n).take m = List.range' s (min m n) := by
  induction n generalizing s m with
  | zero => simp
  | succ k ih =>
    cases m with
    | zero => simp
    | succ m' =>
      rw [List.range'_succ, List.take_succ_cons, ih (s + 1) m']
      rw [show min (m' + 1) (k + 1) = (min m' k) + 1 by omega, List.range'_succ]

theorem splitLoop_length (av : List Nat) (N : Nat) (b : Bool) :
    ∀ (k s stp e : Nat), (splitLoop av N b k s stp e).length = k := by
  intro k
  induction k with
  | zero => intro s stp e; simp [splitLoop]
  | succ n ih =>
    intro s stp e
    rw [splitLoop]
    split <;> simp [ih]

theorem splitLoop_subset (av : List Nat) (N : Nat) (b : Bool) :
    ∀ (k s stp e : Nat), ∀ gr ∈ splitLoop av N b k s stp e, ∀ x ∈ gr, x ∈ av := by
  intro k
  induction k with
  | zero => intro s stp e; simp [splitLoop]
  | succ n ih =>
    intro s stp e gr hgr x hx
    rw [splitLoop] at hgr
    split at hgr <;>
      rcases List.mem_cons.mp hgr with h | h
    · exact List.mem_of_mem_drop (List.mem_of_mem_take (h ▸ hx))
    · exact ih _ _ _ gr h x hx
    · exact List.mem_of_mem_drop (List.mem_of_mem_take (h ▸ hx))
    · exact ih _ _ _ gr h x hx

theorem splitLoop_size_le (av : List Nat) (N : Nat) (b : Bool) :
    ∀ (k s stp e : Nat), stp - s ≤ N + 1 →
      ∀ gr ∈ splitLoop av N b k s stp e, gr.length ≤ N + 1 := by
  intro k
  induction k with
  | zero => intro s stp e _; simp [splitLoop]
  | succ n ih =>
    intro s stp e hd gr hgr
    rw [splitLoop] at hgr
    split at hgr <;>
      rcases List.mem_cons.mp hgr with h | h
    · subst h; exact le_trans (List.length_take_le _ _) hd
    · exact ih _ _ _ (by omega) gr h
    · subst h; exact le_trans (List.length_take_le _ _) hd
    · exact ih _ _ _ (by omega) gr h

theorem splitLoop_false_eq (av : List Nat) (N : Nat) :
    ∀ (k s e : Nat), splitLoop av N false k s (s + N) e
      = (List.range k).map (fun i => (av.drop (s + i * N)).take N) := by
  intro k
  induction k with
  | zero => intro s e; simp [splitLoop]
  | succ n ih =>
    intro s e
    rw [splitLoop]
    simp only [Bool.false_and, if_neg (by simp : ¬(false = true))]
    rw [List.range_succ_eq_map, List.map_cons, List.map_map]
    congr 1
    · simp
    · rw [show s + N + N = (s + N) + N from rfl, ih (s + N) e]
      apply List.map_congr_left
      intro a _
      simp only [Function.comp]
      congr 2
      rw [Nat.succ_mul]
      omega

theorem splitLoop_true_lengths (av : List Nat) (N : Nat) :
    ∀ (k s e first : Nat), s + (chunkSizes N k e first).sum ≤ av.length →
      (splitLoop av N true k s (s + first) e).map List.length = chunkSizes N k e first := by
  intro k
  induction k with
  | zero => intro s e first _; simp [splitLoop, chunkSizes]
  | succ n ih =>
    intro s e first hsum
    rw [splitLoop, chunkSizes] at *
    by_cases he : e > 0
    · rw [if_pos (by simpa using he)]
      rw [if_pos he] at hsum ⊢
      rw [List.map_cons]
      congr 1
      · simp only [List.length_take, List.length_drop]
        simp only [List.sum_cons] at hsum
        omega
      · rw [show s + first + N + 1 = (s + first) + (N + 1) by omega]
        apply ih
        simp only [List.sum_cons] at hsum
        omega
    · rw [if_neg (by simpa using he)]
      rw [if_neg he] at hsum ⊢
      rw [List.map_cons]
      congr 1
      · simp only [List.length_take, List.length_drop]
        simp only [List.sum_cons] at hsum
        omega
      · apply ih
        simp only [List.sum_cons] at hsum
        omega

theorem chunkSizes_eq (N : Nat) :
    ∀ (k e first : Nat), chunkSizes N (k + 1) e first
      = first :: (List.replicate (min k e) (N + 1) ++ List.replicate (k - min k e) N) := by
  intro k
  induction k with
  | zero => intro e first; simp [chunkSizes]
  | succ n ih =>
    intro e first
    rw [chunkSizes]
    by_cases he : e > 0
    · rw [if_pos he, ih]
      congr 1
      rw [show min (n + 1) e = min n (e - 1) + 1 by omega, List.replicate_succ,
        List.cons_append]
      congr 3
      omega
    · rw [if_neg he]
      have he0 : e = 0 := by omega
      subst he0
      rw [ih]
      simp [List.replicate_succ]

/-! ## Claims C2, C3, C4 -/

/--
Claim C2: for every total process count `R ≥ 2` and group size `g ≥ 1`,
`split_ranks` excludes rank 0 from all groups; with `include_all = false`
it produces exactly `(R-1)/g` groups, the `i`-th being the consecutive
chunk `[1 + i*g, ..., i*g + g]` of ranks drawn in order from `1..R-1`;
with `include_all = true` no produced group exceeds `g + 1` members.
-/
theorem split_ranks_partition (R g : Nat) (hR : 2 ≤ R) (hg : 1 ≤ g) :
    (∀ b : Bool, ∀ gr ∈ split_ranks R g b, 0 ∉ gr)
    ∧ (split_ranks R g false).length = (R - 1) / g
    ∧ (∀ i, i < (R - 1) / g →
        (split_ranks R g false).getD i [] = List.range' (1 + i * g) g)
    ∧ (∀ gr ∈ split_ranks R g true, gr.length ≤ g + 1) := by
  have hav : (List.range' 1 (R - 1)).length = R - 1 := List.length_range' ..
  refine ⟨?_, ?_, ?_, ?_⟩
  · intro b gr hgr hx
    have := splitLoop_subset _ _ _ _ _ _ _ gr hgr 0 hx
    rw [List.mem_range'_1] at this
    omega
  · simp only [split_ranks]
    rw [splitLoop_length, hav]
  · intro i hi
    simp only [split_ranks, hav]
    have hc := splitLoop_false_eq (List.range' 1 (R - 1)) g ((R - 1) / g) 0 ((R - 1) % g)
    simp only [Nat.zero_add] at hc
    rw [hc, List.getD_eq_getElem?_getD, List.getElem?_map]
    have hi' : (List.range ((R - 1) / g))[i]? = some i := by
      simp [List.getElem?_range, hi]
    rw [hi']
    simp only [Option.map_some', Option.getD_some]
    rw [range'_drop, range'_take]
    have h1 : (i + 1) * g ≤ R - 1 := by
      have h2 : i + 1 ≤ (R - 1) / g := hi
      exact (Nat.le_div_iff_mul_le hg).mp h2
    rw [Nat.succ_mul] at h1
    congr 1
    omega
  · intro gr hgr
    exact splitLoop_size_le _ _ _ _ _ _ _ (by omega) gr hgr

/-- Witness for C2 at `R = 5`, `g = 2`. -/
theorem split_ranks_partition_witness : (2 ≤ 5 ∧ 1 ≤ 2) ∧
    ((∀ b : Bool, ∀ gr ∈ split_ranks 5 2 b, 0 ∉ gr)
    ∧ (split_ranks 5 2 false).length = (5 - 1) / 2
    ∧ (∀ i, i < (5 - 1) / 2 →
        (split_ranks 5 2 false).getD i [] = List.range' (1 + i * 2) 2)
    ∧ (∀ gr ∈ split_ranks 5 2 true, gr.length ≤ 2 + 1)) :=
  ⟨⟨by decide, by decide⟩, split_ranks_partition 5 2 (by decide) (by decide)⟩

/--
Claim C3, counterexample: for `R = 6`, `g = 2`, `include_all = true` the
code yields first group `[1, 2]` and second group `[3, 4, 5]` — not
`[1, 2, 3]` and `[4, 5]` as the claim states.  The extra rank goes to the
second group because the loop enlarges `stop` only after the first chunk
has been sliced.
-/
theorem split_ranks_remainder_counterexample :
    split_ranks 6 2 true = [[1, 2], [3, 4, 5]] ∧
    split_ranks 6 2 true ≠ [[1, 2, 3], [4, 5]] := by decide

/--
Claim C3 (amended): with `include_all = true` the leftover members are
distributed one at a time to the earliest groups after the first,
starting from the second group, one extra member each while leftovers
remain: the list of group sizes is `g` followed by `min (k-1) e` copies
of `g + 1` and then copies of `g`, where `k = (R-1)/g` is the group count
and `e = (R-1) % g` the number of leftovers.  In particular, for `R = 6`
and `g = 2` the partitioner yields first group `[1, 2]` and second group
`[3, 4, 5]`.
-/
theorem split_ranks_remainder (R g : Nat) (hg : 1 ≤ g) (hk : 1 ≤ (R - 1) / g) :
    (split_ranks R g true).map List.length
      = g :: (List.replicate (min ((R - 1) / g - 1) ((R - 1) % g)) (g + 1)
          ++ List.replicate (((R - 1) / g - 1) - min ((R - 1) / g - 1) ((R - 1) % g)) g)
    ∧ split_ranks 6 2 true = [[1, 2], [3, 4, 5]] := by
  constructor
  · have hav : (List.range' 1 (R - 1)).length = R - 1 := List.length_range' ..
    simp only [split_ranks, hav]
    obtain ⟨k, hkk⟩ : ∃ k, (R - 1) / g = k + 1 := ⟨(R - 1) / g - 1, by omega⟩
    have hdm : g * ((R - 1) / g) + (R - 1) % g = R - 1 := Nat.div_add_mod (R - 1) g
    have hsumval : (chunkSizes g ((R - 1) / g) ((R - 1) % g) g).sum ≤ R - 1 := by
      rw [hkk, chunkSizes_eq]
      set e := (R - 1) % g with hedef
      set a := min k e with hadef
      have ha1 : a ≤ k := by omega
      have ha2 : a ≤ e := by omega
      rw [List.sum_cons, List.sum_append, List.sum_replicate, List.sum_replicate,
        smul_eq_mul, smul_eq_mul]
      have hklg : g + (a * (g + 1) + (k - a) * g) = g * (k + 1) + a := by
        have hb : k - a + a = k := by omega
        calc g + (a * (g + 1) + (k - a) * g)
            = g * ((k - a) + a + 1) + a := by ring_nf
          _ = g * (k + 1) + a := by rw [hb]
      rw [hklg, ← hkk]
      omega
    have hform := splitLoop_true_lengths (List.range' 1 (R - 1)) g ((R - 1) / g) 0
      ((R - 1) % g) g (by rw [hav]; omega)
    simp only [Nat.zero_add] at hform
    rw [hform, hkk, chunkSizes_eq]
    norm_num
  · decide

/-- Witness for C3 (amended) at `R = 6`, `g = 2`. -/
theorem split_ranks_remainder_witness : (1 ≤ 2 ∧ 1 ≤ (6 - 1) / 2) ∧
    ((split_ranks 6 2 true).map List.length
      = 2 :: (List.replicate (min ((6 - 1) / 2 - 1) ((6 - 1) % 2)) (2 + 1)
          ++ List.replicate (((6 - 1) / 2 - 1) - min ((6 - 1) / 2 - 1) ((6 - 1) % 2)) 2)
    ∧ split_ranks 6 2 true = [[1, 2], [3, 4, 5]]) :=
  ⟨⟨by decide, by decide⟩, split_ranks_remainder 6 2 (by decide) (by decide)⟩

/--
Claim C4: constructing `MPIPool` with fewer than 2 processes or a
non-positive `cpus_per_worker` raises at start-up (a `ValueError` for a
lone process; for non-positive group sizes the `split_ranks` arithmetic
raises `ZeroDivisionError` or the empty loop leaves `i` unbound and
`self.workers = i + 1` raises `NameError`), before any task is
dispatched.
-/
theorem pool_init_rejects (size : Nat) (cpus : Int) (h : size < 2 ∨ cpus ≤ 0) :
    ∃ e, MPIPool.init size cpus = .error e := by
  simp only [MPIPool.init]
  split_ifs with h1 h0 hit hsz
  · exact ⟨_, rfl⟩
  · exact ⟨_, rfl⟩
  · exact ⟨_, rfl⟩
  · exact ⟨_, rfl⟩
  · exfalso
    apply hit
    rcases h with hs | hc
    · have h0' : size = 0 := by omega
      subst h0'
      norm_num
    · apply Int.toNat_of_nonpos
      exact Int.fdiv_nonpos le_sup_right (by omega)

/-- Witness for C4: one process (`size = 1`) and a non-positive group size. -/
theorem pool_init_rejects_witness :
    (1 < 2 ∨ (2 : Int) ≤ 0) ∧ (∃ e, MPIPool.init 1 2 = .error e) ∧
    ((4 < 2 ∨ (-3 : Int) ≤ 0) ∧ ∃ e, MPIPool.init 4 (-3) = .error e) :=
  ⟨Or.inl (by decide), pool_init_rejects 1 2 (Or.inl (by decide)),
    Or.inr (by decide), pool_init_rejects 4 (-3) (Or.inr (by decide))⟩

/-! ## Helper lemmas: the master's stable sort by submission index -/

theorem insertKeyed_perm (x : Nat × β) (l : List (Nat × β)) :
    List.Perm (insertKeyed x l) (x :: l) := by
  induction l with
  | nil => rfl
  | cons y ys ih =>
    rw [insertKeyed]
    split
    · rfl
    · exact (List.Perm.cons y ih).trans (List.Perm.swap x y ys)

theorem sortByIndex_perm (l : List (Nat × β)) : List.Perm (sortByIndex l) l := by
  induction l with
  | nil => rfl
  | cons x xs ih =>
    exact (insertKeyed_perm x (sortByIndex xs)).trans (List.Perm.cons x ih)

theorem insertKeyed_pairwise (x : Nat × β) (l : List (Nat × β))
    (hl : List.Pairwise (fun a b : Nat × β => a.1 ≤ b.1) l) :
    List.Pairwise (fun a b : Nat × β => a.1 ≤ b.1) (insertKeyed x l) := by
  induction l with
  | nil => simp [insertKeyed]
  | cons y ys ih =>
    rw [List.pairwise_cons] at hl
    rw [insertKeyed]
    split
    · rw [List.pairwise_cons]
      refine ⟨?_, List.pairwise_cons.mpr hl⟩
      intro b hb
      rcases List.mem_cons.mp hb with h | h
      · subst h; omega
      · exact le_trans (by omega) (hl.1 b h)
    · rw [List.pairwise_cons]
      refine ⟨?_, ih hl.2⟩
      intro b hb
      have hb' := (insertKeyed_perm x ys).mem_iff.mp hb
      rcases List.mem_cons.mp hb' with h | h
      · subst h; omega
      · exact hl.1 b h

theorem sortByIndex_pairwise (l : List (Nat × β)) :
    List.Pairwise (fun a b : Nat × β => a.1 ≤ b.1) (sortByIndex l) := by
  induction l with
  | nil => simp [sortByIndex]
  | cons x xs ih => exact insertKeyed_pairwise x (sortByIndex xs) ih

theorem sortByIndex_sortedKeys (l : List (Nat × β)) :
    List.Sorted (· ≤ ·) ((sortByIndex l).map Prod.fst) :=
  List.pairwise_map.mpr (sortByIndex_pairwise l)

theorem foldl_masterStep_results (nt : Nat) :
    ∀ (msgs : List (MasterMsg β)) (s : MasterState β),
      (msgs.foldl (masterStep nt) s).results = s.results ++ doneList msgs := by
  intro msgs
  induction msgs with
  | nil => intro s; simp [doneList]
  | cons m rest ih =>
    intro s
    rw [List.foldl_cons, ih]
    cases m with
    | ready =>
      rw [doneList]
      congr 1
      simp only [masterStep]
      split <;> rfl
    | done i r => simp [masterStep, doneList]
    | exitMsg => simp [masterStep, doneList]

/-! ## Claim C1 -/

/--
Claim C1: for a task list of length `N` dispatched by the rank-0 side of
`MPIPool.compute`, if the DONE messages deliver, in any arrival order
`perm` (a permutation of `0..N-1`), the payload `[j, f(j, tasks[j])]` for
each submission index `j`, then the returned list has length `N` and its
`i`-th element is the task function's result for the task submitted at
index `i` — the results are re-ordered by submission index regardless of
completion order.
-/
theorem compute_master_ordered {α β : Type} [Inhabited α] [Inhabited β]
    (f : Nat → α → β) (tasks : List α) (msgs : List (MasterMsg β)) (perm : List Nat)
    (hdone : doneList msgs = perm.map (fun j => (j, f j (tasks.getD j default))))
    (hperm : List.Perm perm (List.range tasks.length)) :
    (MPIPool.compute_master tasks.length msgs).length = tasks.length ∧
    ∀ i, i < tasks.length →
      (MPIPool.compute_master tasks.length msgs).getD i default
        = f i (tasks.getD i default) := by
  set g : Nat → Nat × β := fun j => (j, f j (tasks.getD j default)) with hgdef
  have hres : (msgs.foldl (masterStep tasks.length) ⟨0, 0, []⟩).results = perm.map g := by
    rw [foldl_masterStep_results]
    simpa using hdone
  have hcm : MPIPool.compute_master tasks.length msgs
      = (sortByIndex (perm.map g)).map Prod.snd := by
    simp only [MPIPool.compute_master]
    rw [hres]
  set S := sortByIndex (perm.map g) with hSdef
  have hSperm : List.Perm S (perm.map g) := sortByIndex_perm _
  have hmapfst : (perm.map g).map Prod.fst = perm := by
    have hco : Prod.fst ∘ g = id := rfl
    rw [List.map_map, hco, List.map_id]
  have hkeysperm : List.Perm (S.map Prod.fst) (List.range tasks.length) := by
    have h2 : List.Perm (S.map Prod.fst) perm := hmapfst ▸ (hSperm.map Prod.fst)
    exact h2.trans hperm
  have hkeys : S.map Prod.fst = List.range tasks.length :=
    List.eq_of_perm_of_sorted hkeysperm (sortByIndex_sortedKeys _)
      (List.sorted_le_range _)
  have hlenS : S.length = tasks.length := by
    have h3 := congrArg List.length hkeys
    simpa using h3
  constructor
  · rw [hcm]
    simp [hlenS]
  · intro i hi
    have hiS : i < S.length := by omega
    have hfst : (S.get ⟨i, hiS⟩).1 = i := by
      have h3 : (S.map Prod.fst)[i]? = some i := by
        rw [hkeys]
        simp [List.getElem?_range, hi]
      rw [List.getElem?_map, List.getElem?_eq_getElem hiS] at h3
      simpa using h3
    have hmem : S.get ⟨i, hiS⟩ ∈ S := S.get_mem i hiS
    have hmem2 : S.get ⟨i, hiS⟩ ∈ perm.map g := hSperm.mem_iff.mp hmem
    obtain ⟨j, hjmem, hj⟩ := List.mem_map.mp hmem2
    have hji : j = i := by
      have h4 : (g j).1 = j := rfl
      rw [hj] at h4
      omega
    have hj' : g i = S.get ⟨i, hiS⟩ := hji ▸ hj
    rw [hcm, List.getD_eq_getElem?_getD, List.getElem?_map,
      List.getElem?_eq_getElem hiS]
    simp only [Option.map_some', Option.getD_some]
    have h5 : S[i] = g i := by
      rw [hj']
      simp
    rw [h5]

/--
Witness for C1: three tasks completed in arrival order 1, 2, 0 are
returned sorted by submission index.
-/
theorem compute_master_ordered_witness :
    (doneList [MasterMsg.ready, MasterMsg.done 1 21, MasterMsg.ready, MasterMsg.done 2 32,
        MasterMsg.done 0 10, MasterMsg.ready, MasterMsg.exitMsg]
        = [1, 2, 0].map (fun j => (j, (fun (i : Nat) (t : Nat) => t + i) j
            (([10, 20, 30] : List Nat).getD j default)))
      ∧ List.Perm [1, 2, 0] (List.range ([10, 20, 30] : List Nat).length))
    ∧ ((MPIPool.compute_master ([10, 20, 30] : List Nat).length
          [MasterMsg.ready, MasterMsg.done 1 21, MasterMsg.ready, MasterMsg.done 2 32,
            MasterMsg.done 0 10, MasterMsg.ready, MasterMsg.exitMsg]).length
        = ([10, 20, 30] : List Nat).length
      ∧ ∀ i, i < ([10, 20, 30] : List Nat).length →
          (MPIPool.compute_master ([10, 20, 30] : List Nat).length
            [MasterMsg.ready, MasterMsg.done 1 21, MasterMsg.ready, MasterMsg.done 2 32,
              MasterMsg.done 0 10, MasterMsg.ready, MasterMsg.exitMsg]).getD i default
            = (fun (i : Nat) (t : Nat) => t + i) i (([10, 20, 30] : List Nat).getD i default)) :=
  ⟨⟨by decide, by decide⟩,
    compute_master_ordered (fun i t => t + i) [10, 20, 30]
      [MasterMsg.ready, MasterMsg.done 1 21, MasterMsg.ready, MasterMsg.done 2 32,
        MasterMsg.done 0 10, MasterMsg.ready, MasterMsg.exitMsg]
      [1, 2, 0] (by decide) (by decide)⟩

/-! ## Claims C9 and C10 -/

/--
Claim C9: in every iteration of the worker loop, only the local
coordinator (subrank 0) exchanges messages with the global coordinator
(everyone else performs no global-communicator action); every member
executes the same non-global action sequence — the broadcast tag and
payload — as the local coordinator; on a START instruction every member
invokes the task function on the same broadcast payload; and the local
coordinator's sequence places the barrier after execution and before the
DONE send.
-/
theorem worker_loop_protocol {α β : Type} (f : Nat → α → β) (r : Nat) (ins : Instr α) :
    (r ≠ 0 → ∀ a ∈ memberIterActions f r ins, a.isGlobalComm = false)
    ∧ ((memberIterActions f r ins).filter (fun a => !a.isGlobalComm)
        = (memberIterActions f 0 ins).filter (fun a => !a.isGlobalComm))
    ∧ (∀ i t, ins = Instr.start i t →
        WAction.exec i t (f i t) ∈ memberIterActions f r ins)
    ∧ (∀ i t, memberIterActions f 0 (Instr.start i t)
        = [WAction.sendReady, WAction.recvTask (Instr.start i t),
           WAction.bcastArgs (some (i, t)), WAction.bcastTag Tag.START,
           WAction.exec i t (f i t), WAction.barrier, WAction.sendDone i (f i t)]) := by
  refine ⟨?_, ?_, ?_, ?_⟩
  · intro hr a ha
    cases ins with
    | start i t =>
      simp [memberIterActions, hr] at ha
      rcases ha with h | h | h | h <;> subst h <;> rfl
    | exit =>
      simp [memberIterActions, hr] at ha
      rcases ha with h | h <;> subst h <;> rfl
  · by_cases hr : r = 0
    · subst hr; rfl
    · cases ins <;>
        simp [memberIterActions, hr, WAction.isGlobalComm, List.filter]
  · intro i t hins
    subst hins
    by_cases hr : r = 0 <;> simp [memberIterActions, hr]
  · intro i t
    simp [memberIterActions]

/-- Witness for C9 at subrank 1 and the concrete instruction START (0, 7). -/
theorem worker_loop_protocol_witness :
    (∀ a ∈ memberIterActions (fun (i t : Nat) => t + i) 1 (Instr.start 0 7),
        a.isGlobalComm = false)
    ∧ ((memberIterActions (fun (i t : Nat) => t + i) 1 (Instr.start 0 7)).filter
          (fun a => !a.isGlobalComm)
        = (memberIterActions (fun (i t : Nat) => t + i) 0 (Instr.start 0 7)).filter
          (fun a => !a.isGlobalComm))
    ∧ (WAction.exec 0 7 7
        ∈ memberIterActions (fun (i t : Nat) => t + i) 1 (Instr.start 0 7))
    ∧ (memberIterActions (fun (i t : Nat) => t + i) 0 (Instr.start 0 7)
        = [WAction.sendReady, WAction.recvTask (Instr.start 0 7),
           WAction.bcastArgs (some (0, 7)), WAction.bcastTag Tag.START,
           WAction.exec 0 7 7, WAction.barrier, WAction.sendDone 0 7]) :=
  ⟨(worker_loop_protocol (fun (i t : Nat) => t + i) 1 (Instr.start 0 7)).1 (by decide),
    (worker_loop_protocol (fun (i t : Nat) => t + i) 1 (Instr.start 0 7)).2.1,
    (worker_loop_protocol (fun (i t : Nat) => t + i) 1 (Instr.start 0 7)).2.2.1 0 7 rfl,
    (worker_loop_protocol (fun (i t : Nat) => t + i) 1 (Instr.start 0 7)).2.2.2 0 7⟩

/--
Claim C10: `MPIPool.compute` returns the result list only on the master
rank 0; every other rank runs the worker wait loop (an idle, ungrouped
rank's wait returns immediately with no actions) and returns `None`.
-/
theorem compute_only_master_returns {α β : Type} (rank : Nat) (validWorker : Bool)
    (subrank : Nat) (f : Nat → α → β) (tasks : List α) (script : List (Instr α))
    (msgs : List (MasterMsg β)) :
    (rank ≠ 0 → (MPIPool.compute rank validWorker subrank f tasks script msgs).2 = none)
    ∧ (rank ≠ 0 → validWorker = true →
        MPIPool.wait rank validWorker subrank f script
          = .ok (MPIPool.compute rank validWorker subrank f tasks script msgs).1)
    ∧ (rank ≠ 0 → validWorker = false →
        MPIPool.compute rank validWorker subrank f tasks script msgs = ([], none))
    ∧ (rank = 0 →
        MPIPool.compute rank validWorker subrank f tasks script msgs
          = ([], some (MPIPool.compute_master tasks.length msgs))) := by
  refine ⟨?_, ?_, ?_, ?_⟩
  · intro hr
    simp only [MPIPool.compute, if_pos hr]
    cases h : MPIPool.wait rank validWorker subrank f script <;> rfl
  · intro hr hw
    simp only [MPIPool.compute, if_pos hr, MPIPool.wait, if_neg hr, hw]
    simp [MPIPool.wait, if_neg hr, hw]
  · intro hr hw
    simp [MPIPool.compute, if_pos hr, MPIPool.wait, if_neg hr, hw]
  · intro hr
    subst hr
    simp [MPIPool.compute]

/-- Witness for C10 on worker rank 1, idle rank 2 and master rank 0. -/
theorem compute_only_master_returns_witness :
    ((MPIPool.compute 1 true 0 (fun (i t : Nat) => t + i) [5] [Instr.exit]
        ([] : List (MasterMsg Nat))).2 = none)
    ∧ (MPIPool.wait 1 true 0 (fun (i t : Nat) => t + i) [Instr.exit]
        = .ok (MPIPool.compute 1 true 0 (fun (i t : Nat) => t + i) [5] [Instr.exit]
            ([] : List (MasterMsg Nat))).1)
    ∧ (MPIPool.compute 2 false 0 (fun (i t : Nat) => t + i) [5] [Instr.exit]
        ([] : List (MasterMsg Nat)) = ([], none))
    ∧ (MPIPool.compute 0 true 0 (fun (i t : Nat) => t + i) [5] [Instr.exit]
        ([] : List (MasterMsg Nat))
        = ([], some (MPIPool.compute_master ([5] : List Nat).length []))) :=
  ⟨(compute_only_master_returns 1 true 0 (fun (i t : Nat) => t + i) [5] [Instr.exit] []).1
      (by decide),
    (compute_only_master_returns 1 true 0 (fun (i t : Nat) => t + i) [5] [Instr.exit] []).2.1
      (by decide) rfl,
    (compute_only_master_returns 2 false 0 (fun (i t : Nat) => t + i) [5] [Instr.exit] []).2.2.1
      (by decide) rfl,
    (compute_only_master_returns 0 true 0 (fun (i t : Nat) => t + i) [5] [Instr.exit] []).2.2.2
      rfl⟩

/-! ## Claims C5, C7, C8 -/

/--
Claim C5: during cache construction, the `NotImplementedError` signal
from `readall` (caught on the designated rank and broadcast as the
`success` boolean) produces on every rank the empty `DataCache` with zero
columns, zero local size and zero total size, while any other `readall`
exception aborts with an error.
-/
theorem cache_data_fallback {α : Type} (scatter : List α → Nat → List α) (rank : Nat) :
    (∃ c : DataCache α, _cache_data scatter rank ReadallOutcome.notImplemented = .ok c
      ∧ c.empty = true ∧ c.columns = [] ∧ c.local_size = 0 ∧ c.total_size = 0)
    ∧ _cache_data scatter rank (ReadallOutcome.failed : ReadallOutcome α)
        = .error .readallException := by
  refine ⟨⟨⟨[], [], 0, 0⟩, rfl, rfl, rfl, rfl, rfl⟩, rfl⟩

/--
Claim C7: the `size` attribute of a `DataSource` can be set exactly once:
setting an unset size stores it, re-setting the same value is a no-op
leaving the stored size unchanged, and re-setting a different value
raises `ValueError`.
-/
theorem size_set_once {γ : Type} [DecidableEq γ] (v w : γ) :
    DataSource.set_size none v = .ok (some v)
    ∧ DataSource.set_size (some v) v = .ok (some v)
    ∧ (w ≠ v → DataSource.set_size (some v) w = .error .conflict) := by
  refine ⟨rfl, ?_, ?_⟩
  · simp [DataSource.set_size]
  · intro hne
    simp [DataSource.set_size, hne]

/-- Witness for C7 with sizes 10 and 20. -/
theorem size_set_once_witness :
    (DataSource.set_size none (10 : Nat) = .ok (some 10)
    ∧ DataSource.set_size (some (10 : Nat)) 10 = .ok (some 10)
    ∧ ((20 : Nat) ≠ 10 → DataSource.set_size (some (10 : Nat)) 20 = .error .conflict))
    ∧ DataSource.set_size (some (10 : Nat)) 20 = .error .conflict :=
  ⟨size_set_once 10 20, (size_set_once 10 20).2.2 (by decide)⟩

/--
Claim C8: reading a closed `DataStream` raises an error, and closing an
already-closed stream raises nothing (the model of `close` is a total
function because its body cannot raise) and leaves the stream unchanged:
`close` is idempotent.
-/
theorem stream_closed_read_close {α : Type} (s : DataStream α)
    (columns : List String) (pread : List (List (Option (List α)))) :
    s.close.read columns pread = .error .closedStream
    ∧ s.close.close = s.close
    ∧ s.close.closed = true := by
  cases h : s.cacheref with
  | none =>
    have h1 : s.close = s := by
      simp [DataStream.close, DataStream.closed, h]
    rw [h1]
    exact ⟨by simp [DataStream.read, h], h1, by simp [DataStream.closed, h]⟩
  | some c =>
    have h1 : s.close = { cacheref := none, defaults := s.defaults } := by
      simp [DataStream.close, DataStream.closed, h]
    rw [h1]
    exact ⟨rfl, rfl, rfl⟩

/-! ## Helper lemmas: `_blend_data` and the cached read -/

theorem blend_data_ok {α : Type} (defaults : List (String × α)) (valid : List String)
    (size : Nat) :
    ∀ ps : List (String × Option (List α)),
      (∀ p ∈ ps, p.1 ∈ valid) →
      (∀ p ∈ ps, p.2 = none → ∃ v, defaults.lookup p.1 = some v) →
      ∃ out, _blend_data defaults valid size ps = .ok out
        ∧ out.length = ps.length
        ∧ ∀ i (h : i < ps.length),
            (∃ arr, (ps.get ⟨i, h⟩).2 = some arr ∧ out.getD i [] = arr)
            ∨ ((ps.get ⟨i, h⟩).2 = none
                ∧ ∃ v, defaults.lookup (ps.get ⟨i, h⟩).1 = some v
                  ∧ out.getD i [] = List.replicate size v) := by
  intro ps
  induction ps with
  | nil =>
    intro _ _
    exact ⟨[], rfl, rfl, fun i h => absurd h (by simp)⟩
  | cons p rest ih =>
    intro hval hdef
    obtain ⟨col, d⟩ := p
    have hv : col ∈ valid := hval (col, d) (List.mem_cons_self ..)
    obtain ⟨out, ho, hlen, hspec⟩ :=
      ih (fun q hq => hval q (List.mem_cons_of_mem _ hq))
        (fun q hq => hdef q (List.mem_cons_of_mem _ hq))
    cases d with
    | some arr =>
      refine ⟨arr :: out, ?_, by simp [hlen], ?_⟩
      · rw [_blend_data, if_pos hv, ho]
      · intro i h
        cases i with
        | zero => exact Or.inl ⟨arr, rfl, rfl⟩
        | succ j =>
          have hj : j < rest.length := by simpa using h
          simpa using hspec j hj
    | none =>
      obtain ⟨v, hvd⟩ := hdef (col, none) (List.mem_cons_self ..) rfl
      refine ⟨List.replicate size v :: out, ?_, by simp [hlen], ?_⟩
      · rw [_blend_data, if_pos hv, hvd, ho]
      · intro i h
        cases i with
        | zero => exact Or.inr ⟨rfl, v, hvd, rfl⟩
        | succ j =>
          have hj : j < rest.length := by simpa using h
          simpa using hspec j hj

theorem blend_data_missing {α : Type} (defaults : List (String × α)) (valid : List String)
    (size : Nat) :
    ∀ ps : List (String × Option (List α)),
      (∀ p ∈ ps, p.2 = none → p.1 ∈ valid → ∃ v, defaults.lookup p.1 = some v) →
      (∃ p ∈ ps, p.1 ∉ valid) →
      ∃ c, _blend_data defaults valid size ps = .error (.missingColumn c valid)
        ∧ c ∈ ps.map Prod.fst ∧ c ∉ valid := by
  intro ps
  induction ps with
  | nil =>
    intro _ hex
    simp at hex
  | cons p rest ih =>
    intro hdef hex
    obtain ⟨col, d⟩ := p
    by_cases hv : col ∈ valid
    · have hex' : ∃ q ∈ rest, q.1 ∉ valid := by
        rcases hex with ⟨q, hq, hqv⟩
        rcases List.mem_cons.mp hq with h | h
        · rw [h] at hqv
          exact absurd hv hqv
        · exact ⟨q, h, hqv⟩
      obtain ⟨c, herr, hmem, hnv⟩ :=
        ih (fun q hq => hdef q (List.mem_cons_of_mem _ hq)) hex'
      refine ⟨c, ?_, by simp [hmem], hnv⟩
      cases d with
      | some arr =>
        rw [_blend_data, if_pos hv, herr]
      | none =>
        obtain ⟨v, hvd⟩ := hdef (col, none) (List.mem_cons_self ..) rfl hv
        rw [_blend_data, if_pos hv, hvd, herr]
    · refine ⟨col, ?_, by simp, hv⟩
      cases d with
      | some arr => rw [_blend_data, if_neg hv]
      | none => rw [_blend_data, if_neg hv]

theorem lookup_zip_isSome {α : Type} :
    ∀ (ks : List String) (vs : List (List α)), vs.length = ks.length →
      ∀ col, ((ks.zip vs).lookup col).isSome = true ↔ col ∈ ks := by
  intro ks
  induction ks with
  | nil => intro vs _ col; simp
  | cons k ks' ih =>
    intro vs hlen col
    cases vs with
    | nil => simp at hlen
    | cons v vs' =>
      rw [List.zip_cons_cons, List.lookup_cons]
      by_cases hc : col = k
      · subst hc; simp
      · have hbeq : (col == k) = false := by
          simpa using hc
        rw [hbeq]
        simp only [List.mem_cons]
        rw [ih vs' (by simpa using hlen) col]
        constructor
        · exact Or.inr
        · intro h
          rcases h with h | h
          · exact absurd h hc
          · exact h

/-! ## Claim C6 -/

theorem lookup_some_mem_keys {α : Type} (defaults : List (String × α)) (c : String) (v : α)
    (h : defaults.lookup c = some v) : c ∈ defaults.map Prod.fst := by
  have h1 : (defaults.lookup c).isSome = true := by rw [h]; rfl
  obtain ⟨p, hp, he⟩ := List.lookup_isSome_iff.mp h1
  exact List.mem_map.mpr ⟨p, hp, (beq_iff_eq.mp he).symm⟩

theorem blendBatch_noData {α : Type} (defaults : List (String × α)) (columns : List String)
    (raw : List (Option (List α))) (h : raw.filterMap id = []) :
    blendBatch defaults columns raw = .error (.verify .noData) := by
  simp only [blendBatch, h]
  rfl

theorem blendBatch_ok {α : Type} (defaults : List (String × α)) (columns : List String)
    (raw : List (Option (List α))) (hlenr : raw.length = columns.length) (size : Nat)
    (hver : _verify_data (raw.filterMap id) = .ok size)
    (hdef : ∀ p ∈ columns.zip raw, p.2 = none → ∃ v, defaults.lookup p.1 = some v) :
    ∃ out, blendBatch defaults columns raw = .ok out
      ∧ out.length = columns.length
      ∧ ∀ i (h : i < columns.length), raw.getD i none = none →
          ∀ v, defaults.lookup (columns.get ⟨i, h⟩) = some v →
            out.getD i [] = List.replicate size v
            ∧ (out.getD i []).length = size
            ∧ ∀ x ∈ out.getD i [], x = v := by
  have hu : ∀ (x : String) (l₁ l₂ : List String), x ∈ l₁.union l₂ ↔ x ∈ l₁ ∨ x ∈ l₂ :=
    fun x l₁ l₂ => List.mem_union_iff
  have hzlen : (columns.zip raw).length = columns.length := by
    rw [List.length_zip, hlenr, Nat.min_self]
  have hA : ∀ p ∈ columns.zip raw,
      p.1 ∈ ((columns.zip raw).filterMap
          (fun q => if q.2.isSome then some q.1 else none)).union (defaults.map Prod.fst) := by
    intro p hp
    cases hp2 : p.2 with
    | some arr =>
      refine (hu ..).mpr (Or.inl ?_)
      exact List.mem_filterMap.mpr ⟨p, hp, by rw [hp2]; rfl⟩
    | none =>
      obtain ⟨v, hv⟩ := hdef p hp hp2
      exact (hu ..).mpr (Or.inr (lookup_some_mem_keys defaults p.1 v hv))
  obtain ⟨out, ho, holen, hospec⟩ :=
    blend_data_ok defaults
      (((columns.zip raw).filterMap
          (fun q => if q.2.isSome then some q.1 else none)).union (defaults.map Prod.fst))
      size (columns.zip raw) hA hdef
  refine ⟨out, ?_, by rw [holen, hzlen], ?_⟩
  · simp only [blendBatch, hver]
    exact ho
  · intro i h hrn v hv
    have hips : i < (columns.zip raw).length := by omega
    have hiraw : i < raw.length := by omega
    have hget : (columns.zip raw).get ⟨i, hips⟩
        = (columns.get ⟨i, h⟩, raw.get ⟨i, hiraw⟩) := by
      simp [List.getElem_zip]
    have hrg : raw.get ⟨i, hiraw⟩ = none := by
      rw [List.getD_eq_getElem?_getD, List.getElem?_eq_getElem hiraw] at hrn
      simpa using hrn
    rcases hospec i hips with ⟨arr, harr, h0⟩ | ⟨hn2, v', hv', hout⟩
    · rw [hget] at harr
      simp only at harr
      rw [hrg] at harr
      cases harr
    · rw [hget] at hv'
      simp only at hv'
      rw [hv] at hv'
      injection hv' with hvv
      subst hvv
      refine ⟨hout, by rw [hout]; simp, ?_⟩
      intro x hx
      rw [hout] at hx
      exact List.eq_of_mem_replicate hx

theorem blendBatch_missing {α : Type} (defaults : List (String × α)) (columns : List String)
    (raw : List (Option (List α))) (size : Nat)
    (hver : _verify_data (raw.filterMap id) = .ok size)
    (hguard : ∀ p ∈ columns.zip raw, p.2 = none →
        p.1 ∈ ((columns.zip raw).filterMap
            (fun q => if q.2.isSome then some q.1 else none)).union (defaults.map Prod.fst) →
        ∃ v, defaults.lookup p.1 = some v)
    (hex : ∃ p ∈ columns.zip raw,
        p.1 ∉ ((columns.zip raw).filterMap
            (fun q => if q.2.isSome then some q.1 else none)).union (defaults.map Prod.fst)) :
    ∃ c, blendBatch defaults columns raw
        = .error (.missingColumn c (((columns.zip raw).filterMap
            (fun q => if q.2.isSome then some q.1 else none)).union (defaults.map Prod.fst)))
      ∧ c ∈ columns
      ∧ c ∉ ((columns.zip raw).filterMap
          (fun q => if q.2.isSome then some q.1 else none)).union (defaults.map Prod.fst) := by
  obtain ⟨c, herr, hmem, hnv⟩ :=
    blend_data_missing defaults
      (((columns.zip raw).filterMap
          (fun q => if q.2.isSome then some q.1 else none)).union (defaults.map Prod.fst))
      size (columns.zip raw) hguard hex
  refine ⟨c, ?_, ?_, hnv⟩
  · simp only [blendBatch, hver]
    exact herr
  · obtain ⟨p, hp, hpe⟩ := List.mem_map.mp hmem
    obtain ⟨a, b⟩ := p
    have ha := (List.of_mem_zip hp).1
    rw [← hpe]
    exact ha

/--
Claim C6, counterexample: on the streaming branch (empty cache), a batch
in which no requested column is provided by the source — here a stream
with a default 9 registered for the absent column "W", reading `["W"]`
from a single all-absent `parallel_read` batch — raises the no-data
`ValueError` from `_verify_data` (extensionpoints.py line 450) instead of
yielding a default-filled batch, so the claim does not hold for every
read.
-/
theorem stream_read_default_blending_counterexample :
    DataStream.read
        ⟨some (DataCache.mk ([] : List String) ([] : List (List Nat)) 0 0), [("W", (9 : Nat))]⟩
        ["W"] [[none]]
      = .error (.verify .noData)
    ∧ ∀ out : List (List (List Nat)),
        DataStream.read
          ⟨some (DataCache.mk ([] : List String) ([] : List (List Nat)) 0 0), [("W", (9 : Nat))]⟩
          ["W"] [[none]] ≠ .ok out := by
  refine ⟨rfl, ?_⟩
  intro out h
  rw [show DataStream.read
      ⟨some (DataCache.mk ([] : List String) ([] : List (List Nat)) 0 0), [("W", (9 : Nat))]⟩
      ["W"] [[none]] = Except.error (StreamErr.verify CacheErr.noData) from rfl] at h
  exact Except.noConfusion h

/--
Claim C6 (amended): for every read through a `DataStream`, a requested
column absent from the source data is resolved as follows.  On the
cached branch (non-empty cache) and, per batch, on the streaming branch
whenever the batch's present columns verify to a size: if a default was
registered for the column at stream-open time, the yielded batch
contains for that column an array of the batch size in which every
element equals the default; if no default was registered, the read fails
with `DataSource.MissingColumn` naming a missing requested column and
the set of resolvable columns.  However, a streaming batch in which no
requested column is provided by the source fails with `_verify_data`'s
no-data `ValueError` before any blending.  The streaming branch of
`DataStream.read` is exactly `blendBatch` mapped over the raw
`parallel_read` batches, as the second conjunct states.
-/
theorem stream_read_default_blending {α : Type} (cache : DataCache α)
    (defaults : List (String × α)) (columns : List String)
    (pread : List (List (Option (List α))))
    (hlen : cache.vals.length = cache.columns.length) :
    (cache.empty = false →
      ((∀ c ∈ columns, c ∈ cache.columns.union (defaults.map Prod.fst)) →
        ∃ out, DataStream.read ⟨some cache, defaults⟩ columns pread = .ok [out]
          ∧ out.length = columns.length
          ∧ ∀ i (h : i < columns.length), columns.get ⟨i, h⟩ ∉ cache.columns →
              ∀ v, defaults.lookup (columns.get ⟨i, h⟩) = some v →
                out.getD i [] = List.replicate cache.local_size v
                ∧ (out.getD i []).length = cache.local_size
                ∧ ∀ x ∈ out.getD i [], x = v)
      ∧ ((∃ c ∈ columns, c ∉ cache.columns.union (defaults.map Prod.fst)) →
        ∃ c, DataStream.read ⟨some cache, defaults⟩ columns pread
            = .error (.missingColumn c (cache.columns.union (defaults.map Prod.fst)))
          ∧ c ∈ columns ∧ c ∉ cache.columns.union (defaults.map Prod.fst)))
    ∧ (cache.empty = true →
        DataStream.read ⟨some cache, defaults⟩ columns pread
          = pread.mapM (blendBatch defaults columns))
    ∧ (∀ raw : List (Option (List α)),
        (raw.filterMap id = [] →
          blendBatch defaults columns raw = .error (.verify .noData))
        ∧ (raw.length = columns.length →
          ∀ size, _verify_data (raw.filterMap id) = .ok size →
            ((∀ p ∈ columns.zip raw, p.2 = none → ∃ v, defaults.lookup p.1 = some v) →
              ∃ out, blendBatch defaults columns raw = .ok out
                ∧ out.length = columns.length
                ∧ ∀ i (h : i < columns.length), raw.getD i none = none →
                    ∀ v, defaults.lookup (columns.get ⟨i, h⟩) = some v →
                      out.getD i [] = List.replicate size v
                      ∧ (out.getD i []).length = size
                      ∧ ∀ x ∈ out.getD i [], x = v)
            ∧ ((∀ p ∈ columns.zip raw, p.2 = none →
                  p.1 ∈ ((columns.zip raw).filterMap
                      (fun q => if q.2.isSome then some q.1 else none)).union
                    (defaults.map Prod.fst) →
                  ∃ v, defaults.lookup p.1 = some v) →
                (∃ p ∈ columns.zip raw,
                  p.1 ∉ ((columns.zip raw).filterMap
                      (fun q => if q.2.isSome then some q.1 else none)).union
                    (defaults.map Prod.fst)) →
                ∃ c, blendBatch defaults columns raw
                    = .error (.missingColumn c (((columns.zip raw).filterMap
                        (fun q => if q.2.isSome then some q.1 else none)).union
                      (defaults.map Prod.fst)))
                  ∧ c ∈ columns
                  ∧ c ∉ ((columns.zip raw).filterMap
                      (fun q => if q.2.isSome then some q.1 else none)).union
                    (defaults.map Prod.fst)))) := by
  have hco : ∀ col, (cache.getCol col).isSome = true ↔ col ∈ cache.columns :=
    fun col => lookup_zip_isSome cache.columns cache.vals hlen col
  have hnone : ∀ col, cache.getCol col = none ↔ col ∉ cache.columns := by
    intro col
    constructor
    · intro h hc
      have h2 := (hco col).mpr hc
      rw [h] at h2
      simp at h2
    · intro h
      cases hcc : cache.getCol col with
      | none => rfl
      | some arr =>
        have h2 := (hco col).mp (by rw [hcc]; rfl)
        exact absurd h2 h
  have hu : ∀ (x : String) (l₁ l₂ : List String), x ∈ l₁.union l₂ ↔ x ∈ l₁ ∨ x ∈ l₂ :=
    fun x l₁ l₂ => List.mem_union_iff
  have hlook : ∀ c, c ∈ defaults.map Prod.fst → ∃ v, defaults.lookup c = some v := by
    intro c hc
    have h1 : ∃ p ∈ defaults, (c == p.1) = true := by
      obtain ⟨p, hp, he⟩ := List.mem_map.mp hc
      exact ⟨p, hp, by simp [he]⟩
    exact Option.isSome_iff_exists.mp (List.lookup_isSome_iff.mpr h1)
  have hps : columns.zip (columns.map cache.getCol)
      = columns.map (fun c => (c, cache.getCol c)) := by
    have h0 := List.zip_map' id cache.getCol columns
    rw [List.map_id] at h0
    simpa using h0
  have hpfst : (columns.map (fun c => (c, cache.getCol c))).map Prod.fst = columns := by
    have hcomp : (Prod.fst ∘ fun c => (c, cache.getCol c)) = id := rfl
    rw [List.map_map, hcomp, List.map_id]
  refine ⟨?_, ?_, ?_⟩
  · intro hne
    constructor
    · intro hall
      have hA : ∀ p ∈ columns.map (fun c => (c, cache.getCol c)),
          p.1 ∈ cache.columns.union (defaults.map Prod.fst) := by
        intro p hp
        obtain ⟨c, hc, rfl⟩ := List.mem_map.mp hp
        exact hall c hc
      have hB : ∀ p ∈ columns.map (fun c => (c, cache.getCol c)),
          p.2 = none → ∃ v, defaults.lookup p.1 = some v := by
        intro p hp hpn
        obtain ⟨c, hc, rfl⟩ := List.mem_map.mp hp
        have h2 : c ∉ cache.columns := (hnone c).mp hpn
        have h3 := hall c hc
        rcases (hu c _ _).mp h3 with h3 | h3
        · exact absurd h3 h2
        · exact hlook c h3
      obtain ⟨out, ho, holen, hospec⟩ :=
        blend_data_ok defaults (cache.columns.union (defaults.map Prod.fst))
          cache.local_size _ hA hB
      refine ⟨out, ?_, by simpa using holen, ?_⟩
      · simp only [DataStream.read, hne]
        rw [if_neg (by simp : ¬(false = true))]
        have hzip : columns.zip (List.map (fun col => cache.getCol col) columns)
            = List.map (fun c => (c, cache.getCol c)) columns := hps
        rw [hzip, ho]
      · intro i h hnotc v hv
        have hips : i < (List.map (fun c => (c, cache.getCol c)) columns).length := by
          simpa using h
        have hget : (List.map (fun c => (c, cache.getCol c)) columns).get ⟨i, hips⟩
            = (columns.get ⟨i, h⟩, cache.getCol (columns.get ⟨i, h⟩)) := by
          simp
        rcases hospec i hips with ⟨arr, harr, h0⟩ | ⟨hn2, v', hv', hout⟩
        · rw [hget] at harr
          simp only at harr
          have hcn : cache.getCol (columns.get ⟨i, h⟩) = none := (hnone _).mpr hnotc
          rw [hcn] at harr
          cases harr
        · rw [hget] at hv'
          simp only at hv'
          rw [hv] at hv'
          injection hv' with hvv
          subst hvv
          refine ⟨hout, ?_, ?_⟩
          · rw [hout]
            simp
          · intro x hx
            rw [hout] at hx
            exact List.eq_of_mem_replicate hx
    · rintro ⟨c, hc, hcnv⟩
      have hB2 : ∀ p ∈ List.map (fun c => (c, cache.getCol c)) columns,
          p.2 = none → p.1 ∈ cache.columns.union (defaults.map Prod.fst) →
            ∃ v, defaults.lookup p.1 = some v := by
        intro p hp hpn hpv
        obtain ⟨c2, hc2, rfl⟩ := List.mem_map.mp hp
        have h2 : c2 ∉ cache.columns := (hnone c2).mp hpn
        rcases (hu c2 _ _).mp hpv with h3 | h3
        · exact absurd h3 h2
        · exact hlook c2 h3
      have hex : ∃ p ∈ List.map (fun c => (c, cache.getCol c)) columns,
          p.1 ∉ cache.columns.union (defaults.map Prod.fst) :=
        ⟨(c, cache.getCol c), List.mem_map.mpr ⟨c, hc, rfl⟩, hcnv⟩
      obtain ⟨c2, herr, hmem, hnv⟩ :=
        blend_data_missing defaults (cache.columns.union (defaults.map Prod.fst))
          cache.local_size _ hB2 hex
      refine ⟨c2, ?_, ?_, hnv⟩
      · simp only [DataStream.read, hne]
        rw [if_neg (by simp : ¬(false = true))]
        have hzip : columns.zip (List.map (fun col => cache.getCol col) columns)
            = List.map (fun c => (c, cache.getCol c)) columns := hps
        rw [hzip, herr]
      · rw [hpfst] at hmem
        exact hmem
  · intro hemp
    simp [DataStream.read, hemp]
  · intro raw
    refine ⟨blendBatch_noData defaults columns raw, ?_⟩
    intro hlenr size hver
    exact ⟨fun hdef => blendBatch_ok defaults columns raw hlenr size hver hdef,
      fun hguard hex => blendBatch_missing defaults columns raw size hver hguard hex⟩

/--
Witness for C6 (amended): a cached read of `["W"]` with default 9
yields the default-filled batch; a streaming read is `blendBatch` over
the raw batches; an all-absent streaming batch raises the no-data error;
and a streaming batch `["A", "W"]` with "A" present (2 rows) and "W"
absent blends the default 9 into a 2-element array.
-/
theorem stream_read_default_blending_witness :
    (∃ out, DataStream.read ⟨some (DataCache.mk ["A"] [[(5 : Nat)]] 1 1), [("W", 9)]⟩
        ["W"] [] = .ok [out]
      ∧ out.length = (["W"] : List String).length
      ∧ ∀ i (h : i < (["W"] : List String).length),
          (["W"] : List String).get ⟨i, h⟩ ∉ (["A"] : List String) →
          ∀ v, ([("W", (9 : Nat))]).lookup ((["W"] : List String).get ⟨i, h⟩) = some v →
            out.getD i [] = List.replicate 1 v
            ∧ (out.getD i []).length = 1
            ∧ ∀ x ∈ out.getD i [], x = v)
    ∧ (DataStream.read
          ⟨some (DataCache.mk ([] : List String) ([] : List (List Nat)) 0 0),
            [("W", (9 : Nat))]⟩ ["W"] [[none]]
        = ([[none]] : List (List (Option (List Nat)))).mapM
            (blendBatch [("W", (9 : Nat))] ["W"]))
    ∧ (blendBatch [("W", (9 : Nat))] ["W"] [none] = .error (.verify .noData))
    ∧ (∃ out, blendBatch [("W", (9 : Nat))] ["A", "W"] [some [7, 8], none] = .ok out
      ∧ out.length = (["A", "W"] : List String).length
      ∧ ∀ i (h : i < (["A", "W"] : List String).length),
          ([some [7, 8], none] : List (Option (List Nat))).getD i none = none →
          ∀ v, ([("W", (9 : Nat))]).lookup ((["A", "W"] : List String).get ⟨i, h⟩) = some v →
            out.getD i [] = List.replicate 2 v
            ∧ (out.getD i []).length = 2
            ∧ ∀ x ∈ out.getD i [], x = v) :=
  ⟨((stream_read_default_blending (DataCache.mk ["A"] [[(5 : Nat)]] 1 1) [("W", 9)]
        ["W"] [] rfl).1 rfl).1 (by decide),
    (stream_read_default_blending (DataCache.mk ([] : List String) ([] : List (List Nat)) 0 0)
        [("W", (9 : Nat))] ["W"] [[none]] rfl).2.1 rfl,
    ((stream_read_default_blending (DataCache.mk ([] : List String) ([] : List (List Nat)) 0 0)
        [("W", (9 : Nat))] ["W"] [] rfl).2.2 [none]).1 (by decide),
    (((stream_read_default_blending (DataCache.mk ([] : List String) ([] : List (List Nat)) 0 0)
        [("W", (9 : Nat))] ["A", "W"] [] rfl).2.2 [some [7, 8], none]).2 rfl 2
      rfl).1
      (by
        intro p hp hpn
        fin_cases hp
        · simp at hpn
        · exact ⟨9, rfl⟩)⟩
